import Mathlib

/-!
Lean model of the SLA genetic-algorithm scheduler: the static catalog
(data.py), the fitness evaluator (fitness.py), the schedule structural
validator (schedule_repr.py), and the evolutionary loop (ga_core.py).
All scores are modelled as exact rationals.  Random draws of the Python
`random.Random` stream are modelled as explicit oracle functions, so every
theorem about a randomized operation quantifies over all possible streams.
-/

namespace GAScheduler

/-- Assignment of one activity: the Python dict with keys
"room", "time", "facilitator". -/
structure Assignment where
  room : String
  time : String
  facilitator : String
  deriving DecidableEq

/-- A schedule: association list from activity name to its Assignment
(the Python dict `activity -> assignment`). -/
abbrev Schedule := List (String × Assignment)

/-- Keys of the ACTIVITIES table in data.py. -/
def activityNames : List String :=
  ["SLA101A", "SLA101B", "SLA191A", "SLA191B", "SLA201", "SLA291",
   "SLA303", "SLA304", "SLA394", "SLA449", "SLA451"]

/-- ACTIVITIES[act]["enrollment"] from data.py (0 for unknown keys, which a
structurally valid schedule never uses). -/
def enrollment : String → ℚ
  | "SLA101A" => 40
  | "SLA101B" => 35
  | "SLA191A" => 45
  | "SLA191B" => 40
  | "SLA201" => 60
  | "SLA291" => 50
  | "SLA303" => 25
  | "SLA304" => 20
  | "SLA394" => 15
  | "SLA449" => 30
  | "SLA451" => 90
  | _ => 0

/-- ACTIVITIES[act]["preferred"] from data.py. -/
def preferred : String → List String
  | "SLA101A" => ["Glen", "Lock", "Banks"]
  | "SLA101B" => ["Glen", "Lock", "Banks"]
  | "SLA191A" => ["Glen", "Lock", "Banks"]
  | "SLA191B" => ["Glen", "Lock", "Banks"]
  | "SLA201" => ["Glen", "Banks", "Zeldin", "Lock", "Singer"]
  | "SLA291" => ["Glen", "Banks", "Zeldin", "Lock", "Singer"]
  | "SLA303" => ["Glen", "Zeldin"]
  | "SLA304" => ["Singer", "Uther"]
  | "SLA394" => ["Tyler", "Singer"]
  | "SLA449" => ["Tyler", "Zeldin", "Uther"]
  | "SLA451" => ["Lock", "Banks", "Zeldin"]
  | _ => []

/-- ACTIVITIES[act]["others"] from data.py. -/
def others : String → List String
  | "SLA101A" => ["Numen", "Richards", "Shaw", "Singer"]
  | "SLA101B" => ["Numen", "Richards", "Shaw", "Singer"]
  | "SLA191A" => ["Numen", "Richards", "Shaw", "Singer"]
  | "SLA191B" => ["Numen", "Richards", "Shaw", "Singer"]
  | "SLA201" => ["Richards", "Uther", "Shaw"]
  | "SLA291" => ["Richards", "Uther", "Shaw"]
  | "SLA303" => ["Banks"]
  | "SLA304" => ["Richards"]
  | "SLA394" => ["Richards", "Zeldin"]
  | "SLA449" => ["Zeldin", "Shaw"]
  | "SLA451" => ["Tyler", "Singer", "Shaw", "Glen"]
  | _ => []

/-- FACILITATORS from data.py. -/
def FACILITATORS : List String :=
  ["Lock", "Glen", "Banks", "Richards", "Shaw", "Singer", "Uther",
   "Tyler", "Numen", "Zeldin"]

/-- Keys of the ROOMS table in data.py. -/
def roomNames : List String :=
  ["Beach 201", "Beach 301", "Frank 119", "Loft 206", "Loft 310",
   "James 325", "Roman 201", "Roman 216", "Slater 003"]

/-- ROOMS[room]["capacity"] from data.py. -/
def roomCapacity : String → ℚ
  | "Beach 201" => 18
  | "Beach 301" => 25
  | "Frank 119" => 95
  | "Loft 206" => 55
  | "Loft 310" => 48
  | "James 325" => 110
  | "Roman 201" => 40
  | "Roman 216" => 80
  | "Slater 003" => 32
  | _ => 0

/-- ROOMS[room]["has_lab"] from data.py. -/
def roomHasLab : String → Bool
  | "Beach 301" => true
  | "Frank 119" => true
  | "Loft 310" => true
  | "James 325" => true
  | "Roman 216" => true
  | "Slater 003" => true
  | _ => false

/-- ROOMS[room]["has_projector"] from data.py. -/
def roomHasProjector : String → Bool
  | "Beach 201" => true
  | "Beach 301" => true
  | "Frank 119" => true
  | "James 325" => true
  | "Roman 216" => true
  | "Slater 003" => true
  | _ => false

/-- TIMES from data.py. -/
def TIMES : List String :=
  ["10 AM", "11 AM", "12 PM", "1 PM", "2 PM", "3 PM"]

/-- TIME_INDEX from fitness.py: position of a time slot in TIMES
(0 for unknown slots, which a structurally valid schedule never uses). -/
def timeIndex : String → ℤ
  | "10 AM" => 0
  | "11 AM" => 1
  | "12 PM" => 2
  | "1 PM" => 3
  | "2 PM" => 4
  | "3 PM" => 5
  | _ => 0

/-- FACILITATOR_TIME_PREFERENCES like-bonus lookup from data.py:
the bonus added when `time in like_map` for the facilitator, else 0. -/
def likeBonus : String → String → ℚ
  | "Glen", "10 AM" => 1/10
  | "Glen", "11 AM" => 1/10
  | "Banks", "10 AM" => 1/10
  | "Banks", "12 PM" => 1/10
  | "Tyler", "2 PM" => 1/10
  | "Tyler", "3 PM" => 1/10
  | _, _ => 0

/-- FACILITATOR_TIME_PREFERENCES avoid-penalty lookup from data.py:
the (signed) penalty added when `time in avoid_map`, else 0. -/
def avoidPenalty : String → String → ℚ
  | "Glen", "3 PM" => -(1/5)
  | "Banks", "11 AM" => -(1/10)
  | "Banks", "1 PM" => -(1/10)
  | "Tyler", "10 AM" => -(1/5)
  | "Tyler", "11 AM" => -(1/5)
  | "Singer", "12 PM" => -(3/10)
  | _, _ => 0

/-- COURSE_EQUIPMENT_REQUIREMENTS from data.py: (lab, projector). -/
def equipReq : String → Option (Bool × Bool)
  | "SLA304" => some (true, false)
  | "SLA303" => some (true, true)
  | "SLA191A" => some (true, false)
  | "SLA191B" => some (true, false)
  | "SLA291" => some (true, false)
  | "SLA449" => some (false, true)
  | "SLA451" => some (true, true)
  | _ => none

/-- validate_schedule_structure from schedule_repr.py: the key set equals
the full activity set (mutual containment of keys, i.e. Python set
equality), and every assignment's room and time lie in the known domains.
The three dict keys and the facilitator-is-a-string check of the source
hold by construction in the `Assignment` record. -/
def validateScheduleStructure (s : Schedule) : Bool :=
  decide ((∀ a ∈ activityNames, a ∈ s.map Prod.fst) ∧
          (∀ p ∈ s, p.1 ∈ activityNames) ∧
          (∀ p ∈ s, p.2.room ∈ roomNames ∧ p.2.time ∈ TIMES))

/-- Membership count of the `room_time_to_activities[(room, time)]` list in
compute_schedule_fitness (only its length is ever used by the source). -/
def roomTimeCount (s : Schedule) (room time : String) : ℕ :=
  (s.filter (fun p => p.2.room == room && p.2.time == time)).length

/-- Membership count of `fac_time_to_activities[(facilitator, time)]`. -/
def facTimeCount (s : Schedule) (fac time : String) : ℕ :=
  (s.filter (fun p => p.2.facilitator == fac && p.2.time == time)).length

/-- Length of `fac_to_activities[facilitator]`: the total number of
activities assigned to the facilitator. -/
def facLoad (s : Schedule) (fac : String) : ℕ :=
  (s.filter (fun p => p.2.facilitator == fac)).length

/-- Room-size rule block of compute_schedule_fitness (fitness.py lines
110-126): too small, then the more-than-3-times check before the
more-than-1.5-times check, else the +0.3 bonus. -/
def roomSizeScore (cap enr : ℚ) : ℚ :=
  if cap < enr then -(1/2)
  else if cap / enr > 3 then -(2/5)
  else if cap / enr > 3/2 then -(1/5)
  else 3/10

/-- Equipment-requirement block of compute_schedule_fitness (fitness.py
lines 161-190). -/
def equipScore (act room : String) : ℚ :=
  match equipReq act with
  | none => 0
  | some lp =>
    let requiredCount : ℕ :=
      (if lp.1 then 1 else 0) + (if lp.2 then 1 else 0)
    let satisfiedCount : ℕ :=
      (if lp.1 && roomHasLab room then 1 else 0) +
      (if lp.2 && roomHasProjector room then 1 else 0)
    if requiredCount > 0 then
      if satisfiedCount = requiredCount then 1/5
      else if satisfiedCount > 0 then -(1/10)
      else -(3/10)
    else 0

/-- Per-activity score of compute_schedule_fitness (fitness.py lines
92-193): room conflict, room size, facilitator suitability, per-time-slot
facilitator load, optional time preferences, optional equipment. -/
def activityScore (s : Schedule) (act : String) (a : Assignment) : ℚ :=
  (if roomTimeCount s a.room a.time > 1 then -(1/2) else 0) +
  roomSizeScore (roomCapacity a.room) (enrollment act) +
  (if (preferred act).contains a.facilitator then 1/2
   else if (others act).contains a.facilitator then 1/5
   else -(1/10)) +
  (if facTimeCount s a.facilitator a.time = 1 then 1/5
   else if facTimeCount s a.facilitator a.time > 1 then -(1/5)
   else 0) +
  likeBonus a.facilitator a.time +
  avoidPenalty a.facilitator a.time +
  equipScore act a.room

/-- Aggregate-load term contributed for one facilitator by the loop at
fitness.py lines 198-216: more than 4 activities, and the fewer-than-3
penalty with the Dr. Tyler special case. -/
def facLoadTerm (f : String) (load : ℕ) : ℚ :=
  (if load > 4 then -(1/2) else 0) +
  (if f ≠ "Tyler" then
    (if 0 < load ∧ load < 3 then -(2/5) else 0)
   else
    (if load = 2 then -(2/5) else 0))

/-- First lookup of `schedule[act]` (the Python dict access used by
`_get_time_and_room`), as (time, room); ("", "") stands for the KeyError
case, which a structurally valid schedule never reaches. -/
def getTR (s : Schedule) (act : String) : String × String :=
  match (s.find? (fun p => p.1 == act)).map Prod.snd with
  | some a => (a.time, a.room)
  | none => ("", "")

/-- _get_building from fitness.py: first whitespace-separated token of the
room name. -/
def getBuilding (room : String) : String :=
  (room.splitOn " ").headD ""

/-- Membership of the room's building in the set {"Roman", "Beach"}. -/
def isRomanBeach (room : String) : Bool :=
  getBuilding room == "Roman" || getBuilding room == "Beach"

/-- The pairs_101_191 list of fitness.py. -/
def crossPairs : List (String × String) :=
  [("SLA101A", "SLA191A"), ("SLA101A", "SLA191B"),
   ("SLA101B", "SLA191A"), ("SLA101B", "SLA191B")]

/-- Cross-pair adjustment for one (SLA101 section, SLA191 section)
combination, fitness.py lines 263-292: three independent checks of the
time distance, with the Roman/Beach building penalty nested inside the
distance-1 case. -/
def crossScore (s : Schedule) (a101 a191 : String) : ℚ :=
  let tr1 := getTR s a101
  let tr2 := getTR s a191
  let dt : ℕ := (timeIndex tr1.1 - timeIndex tr2.1).natAbs
  (if dt = 0 then -(1/4) else 0) +
  (if dt = 1 then
    1/2 + (if isRomanBeach tr1.2 != isRomanBeach tr2.2 then -(2/5) else 0)
   else 0) +
  (if dt = 2 then 1/4 else 0)

/-- Activity-specific adjustments of compute_schedule_fitness (fitness.py
lines 222-292): the two sibling-section rules for SLA101 and SLA191, then
the four cross combinations. -/
def sectionAdjustments (s : Schedule) : ℚ :=
  let i101a := timeIndex (getTR s "SLA101A").1
  let i101b := timeIndex (getTR s "SLA101B").1
  let i191a := timeIndex (getTR s "SLA191A").1
  let i191b := timeIndex (getTR s "SLA191B").1
  (if (i101a - i101b).natAbs > 4 then 1/2 else 0) +
  (if i101a = i101b then -(1/2) else 0) +
  (if (i191a - i191b).natAbs > 4 then 1/2 else 0) +
  (if i191a = i191b then -(1/2) else 0) +
  (crossPairs.map (fun pr => crossScore s pr.1 pr.2)).sum

/-- compute_schedule_fitness from fitness.py: the per-activity scores, the
per-facilitator aggregate-load terms over the full roster, and the
SLA101/SLA191 activity-specific adjustments. -/
def computeScheduleFitness (s : Schedule) : ℚ :=
  (s.map (fun p => activityScore s p.1 p.2)).sum +
  (FACILITATORS.map (fun f => facLoadTerm f (facLoad s f))).sum +
  sectionAdjustments s

/-- Aggregate-load term transcribed from the specification wording: more
than 4 activities adds -0.5; a total in [1,3) adds -0.4, except that the
designated facilitator "Tyler" gets the -0.4 exactly when the total is 2. -/
def loadTermSpec (f : String) (load : ℕ) : ℚ :=
  (if 4 < load then -(1/2) else 0) +
  (if f = "Tyler" then
    (if load = 2 then -(2/5) else 0)
   else
    (if 1 ≤ load ∧ load < 3 then -(2/5) else 0))

/-- Sibling-pair adjustment transcribed from the specification wording:
+0.5 when the absolute difference of time-slot indices exceeds 4, and
-0.5 when that difference is 0. -/
def pairAdjSpec (i j : ℤ) : ℚ :=
  (if 4 < (i - j).natAbs then 1/2 else 0) +
  (if (i - j).natAbs = 0 then -(1/2) else 0)

/-- Cross-pair adjustment transcribed from the specification wording:
distance 0 gives -0.25; distance 1 gives +0.5 plus, in that case only, an
additional -0.4 when exactly one room is in a nearby building; distance 2
gives +0.25; anything else gives 0. -/
def crossAdjSpec (i j : ℤ) (nearby101 nearby191 : Bool) : ℚ :=
  if (i - j).natAbs = 0 then -(1/4)
  else if (i - j).natAbs = 1 then
    1/2 + (if nearby101 ≠ nearby191 then -(2/5) else 0)
  else if (i - j).natAbs = 2 then 1/4
  else 0

/-- A concrete structurally valid schedule in which "Tyler" facilitates
exactly two activities. -/
def exSchedule : Schedule :=
  [("SLA101A", ⟨"Beach 201", "10 AM", "Tyler"⟩),
   ("SLA101B", ⟨"Beach 201", "11 AM", "Tyler"⟩),
   ("SLA191A", ⟨"Beach 301", "12 PM", "Lock"⟩),
   ("SLA191B", ⟨"Frank 119", "1 PM", "Lock"⟩),
   ("SLA201", ⟨"Loft 206", "2 PM", "Lock"⟩),
   ("SLA291", ⟨"Loft 310", "3 PM", "Lock"⟩),
   ("SLA303", ⟨"James 325", "10 AM", "Lock"⟩),
   ("SLA304", ⟨"Roman 201", "11 AM", "Lock"⟩),
   ("SLA394", ⟨"Roman 216", "12 PM", "Lock"⟩),
   ("SLA449", ⟨"Slater 003", "1 PM", "Lock"⟩),
   ("SLA451", ⟨"Beach 201", "2 PM", "Lock"⟩)]

/-- _random_assignment from ga_core.py.  Each rng.choice draw is
modelled by an arbitrary natural reduced modulo the domain size, since
rng.choice on a non-empty sequence always returns one of its members. -/
def randomAssignment (d : ℕ × ℕ × ℕ) : Assignment :=
  { room := roomNames.getD (d.1 % roomNames.length) "",
    time := TIMES.getD (d.2.1 % TIMES.length) "",
    facilitator := FACILITATORS.getD (d.2.2 % FACILITATORS.length) "" }

/-- create_random_schedule from ga_core.py: one random assignment per
known activity; `draw` is the oracle for the per-activity rng draws. -/
def createRandomSchedule (draw : String → ℕ × ℕ × ℕ) : Schedule :=
  activityNames.map (fun a => (a, randomAssignment (draw a)))

/-- initialize_population from ga_core.py: pop_size independent random
schedules; `draw k` is the stream consumed by individual k. -/
def initPopulation (popSize : ℕ) (draw : ℕ → String → ℕ × ℕ × ℕ) :
    List Schedule :=
  (List.range popSize).map (fun k => createRandomSchedule (draw k))

/-- Dict access `schedule[activity]`; none models the KeyError case. -/
def lookupA (s : Schedule) (act : String) : Option Assignment :=
  (s.find? (fun p => p.1 == act)).map Prod.snd

/-- Loop body of crossover over the listed activities, threading the
possibility of a missing key through Option. -/
def crossGo (p1 p2 : Schedule) (coin : String → Bool) :
    List String → Option Schedule
  | [] => some []
  | a :: rest =>
    match (if coin a then lookupA p1 a else lookupA p2 a),
          crossGo p1 p2 coin rest with
    | some asgn, some c => some ((a, asgn) :: c)
    | _, _ => none

/-- crossover from ga_core.py: uniform crossover copying each activity's
whole assignment from parent1 when the coin flip (the outcome of
`rng.random() < 0.5`) says so, else from parent2. -/
def crossover (p1 p2 : Schedule) (coin : String → Bool) : Option Schedule :=
  crossGo p1 p2 coin activityNames

/-- Outcomes of the rng draws consumed by mutate for one activity: the
three comparisons `rng.random() < mutation_rate`, and the three
rng.choice indices used when the corresponding field mutates. -/
structure MutDraw where
  mr : Bool
  mt : Bool
  mf : Bool
  ir : ℕ
  it : ℕ
  fr : ℕ

/-- Per-assignment step of mutate from ga_core.py. -/
def mutateAssignment (d : MutDraw) (a : Assignment) : Assignment :=
  { room :=
      if d.mr then roomNames.getD (d.ir % roomNames.length) "" else a.room,
    time :=
      if d.mt then TIMES.getD (d.it % TIMES.length) "" else a.time,
    facilitator :=
      if d.mf then FACILITATORS.getD (d.fr % FACILITATORS.length) ""
      else a.facilitator }

/-- mutate from ga_core.py (the in-place update, returned as a value):
every activity's three fields are independently re-drawn according to
the oracle `dr`. -/
def mutate (s : Schedule) (dr : String → MutDraw) : Schedule :=
  s.map (fun p => (p.1, mutateAssignment (dr p.1) p.2))

/-- evaluate_population from ga_core.py. -/
def evaluatePopulation (pop : List Schedule) : List ℚ :=
  pop.map computeScheduleFitness

/-- Python max over a non-empty list (default for the empty list, on
which the source would raise). -/
def listMax {α : Type} [Inhabited α] [LinearOrder α] : List α → α
  | [] => default
  | x :: xs => xs.foldl max x

/-- Python min over a non-empty list (default for the empty list, on
which the source would raise). -/
def listMin {α : Type} [Inhabited α] [LinearOrder α] : List α → α
  | [] => default
  | x :: xs => xs.foldl min x

/-- Python sum(fitnesses) / len(fitnesses) (0 for the empty list, on
which the source would raise a zero-division error). -/
def avgFit (l : List ℚ) : ℚ := l.sum / (l.length : ℚ)

/-- Improvement-percent computation of run_ga (ga_core.py lines 236-239):
100.0 for the first generation or when the previous average is within
1e-9 of zero. -/
def improvementPct (prev : Option ℚ) (avg : ℚ) : ℚ :=
  match prev with
  | none => 100
  | some p => if |p| < 1/1000000000 then 100 else (avg - p) / |p| * 100

/-- The fixed floor min_mutation_rate = 0.001 hard-coded inside run_ga
(ga_core.py line 228); it is not a parameter of the entry point. -/
def minMutationRate : ℚ := 1/1000

/-- Adaptive-mutation block of run_ga (ga_core.py lines 257-264): on a
positive generation divisible by the halve interval, halve the rate
(clamped at the floor) when the average improved since the checkpoint
and the rate exceeds the floor; always update the checkpoint average. -/
def adaptMutation (interval gen : ℕ) (avgF rate : ℚ) (check : Option ℚ) :
    ℚ × Option ℚ :=
  if 0 < gen ∧ gen % interval = 0 then
    (match check with
     | some c =>
       if c < avgF ∧ minMutationRate < rate then
         max (rate / 2) minMutationRate
       else rate
     | none => rate,
     some avgF)
  else (rate, check)

/-- Snapshot appended to fitness_history once per generation by run_ga. -/
structure GenRecord where
  generation : ℕ
  bestFitness : ℚ
  avgFitness : ℚ
  worstFitness : ℚ
  improvementPercent : ℚ
  mutationRate : ℚ

/-- Loop state of run_ga between generations. -/
structure GAState where
  population : List Schedule
  fitnesses : List ℚ
  history : List GenRecord
  prevAvgFitness : Option ℚ
  currentMutationRate : ℚ
  avgAtLastMutationCheck : Option ℚ

/-- Parameters of run_ga (ga_core.py lines 182-190). -/
structure GAParams where
  populationSize : ℕ
  mutationRate : ℚ
  minGenerations : ℕ
  maxGenerations : ℕ
  improvementThreshold : ℚ
  mutationHalveInterval : ℕ

/-- All random draws consumed by one run of the GA, indexed by generation
and breeding-pair position; the pick fields model sample_index_from_cdf
(whose result is always a valid index, here reduced modulo the population
length), the coin fields the crossover flips, and the mut fields the
mutation draws. -/
structure GAOracle where
  initDraw : ℕ → String → ℕ × ℕ × ℕ
  pick1 : ℕ → ℕ → ℕ
  pick2 : ℕ → ℕ → ℕ
  coin1 : ℕ → ℕ → String → Bool
  coin2 : ℕ → ℕ → String → Bool
  mut1 : ℕ → ℕ → String → MutDraw
  mut2 : ℕ → ℕ → String → MutDraw

/-- One iteration of the breeding while-loop of run_ga (ga_core.py lines
277-294): select two parents, produce two children by crossover, and
mutate each child. -/
def breedPair (O : GAOracle) (gen pairIdx : ℕ) (pop : List Schedule) :
    List Schedule :=
  [mutate ((crossover (pop.getD (O.pick1 gen pairIdx % pop.length) [])
      (pop.getD (O.pick2 gen pairIdx % pop.length) [])
      (O.coin1 gen pairIdx)).getD []) (O.mut1 gen pairIdx),
   mutate ((crossover (pop.getD (O.pick1 gen pairIdx % pop.length) [])
      (pop.getD (O.pick2 gen pairIdx % pop.length) [])
      (O.coin2 gen pairIdx)).getD []) (O.mut2 gen pairIdx)]

/-- The breeding while-loop of run_ga: children are appended two at a
time until the population size is reached; the final take models the
"append the second child only if there is room" check. -/
def breedPop (O : GAOracle) (gen popSize : ℕ) (pop : List Schedule) :
    List Schedule :=
  (((List.range ((popSize + 1) / 2)).map
      (fun k => breedPair O gen k pop)).flatten).take popSize

/-- One iteration of the generation loop of run_ga (ga_core.py lines
230-299): record statistics into the history, run the adaptive-mutation
block, test the convergence break (which in the source happens after the
adaptive block), and otherwise breed the next generation and update the
previous-average tracker.  The boolean is the break flag. -/
def gaStep (P : GAParams) (O : GAOracle) (gen : ℕ) (st : GAState) :
    GAState × Bool :=
  if gen + 1 ≥ P.minGenerations ∧
      |improvementPct st.prevAvgFitness (avgFit st.fitnesses)| <
        P.improvementThreshold then
    ({ st with
        history := st.history ++
          [⟨gen, listMax st.fitnesses, avgFit st.fitnesses,
            listMin st.fitnesses,
            improvementPct st.prevAvgFitness (avgFit st.fitnesses),
            st.currentMutationRate⟩],
        currentMutationRate :=
          (adaptMutation P.mutationHalveInterval gen (avgFit st.fitnesses)
            st.currentMutationRate st.avgAtLastMutationCheck).1,
        avgAtLastMutationCheck :=
          (adaptMutation P.mutationHalveInterval gen (avgFit st.fitnesses)
            st.currentMutationRate st.avgAtLastMutationCheck).2 }, true)
  else
    ({ population := breedPop O gen P.populationSize st.population,
       fitnesses := evaluatePopulation
         (breedPop O gen P.populationSize st.population),
       history := st.history ++
         [⟨gen, listMax st.fitnesses, avgFit st.fitnesses,
           listMin st.fitnesses,
           improvementPct st.prevAvgFitness (avgFit st.fitnesses),
           st.currentMutationRate⟩],
       prevAvgFitness := some (avgFit st.fitnesses),
       currentMutationRate :=
         (adaptMutation P.mutationHalveInterval gen (avgFit st.fitnesses)
           st.currentMutationRate st.avgAtLastMutationCheck).1,
       avgAtLastMutationCheck :=
         (adaptMutation P.mutationHalveInterval gen (avgFit st.fitnesses)
           st.currentMutationRate st.avgAtLastMutationCheck).2 }, false)

/-- The `for gen in range(max_generations)` loop of run_ga with its
break statement, by fuel on the remaining generations. -/
def gaLoop (P : GAParams) (O : GAOracle) : ℕ → ℕ → GAState → GAState
  | 0, _, st => st
  | fuel + 1, gen, st =>
    if (gaStep P O gen st).2 then (gaStep P O gen st).1
    else gaLoop P O fuel (gen + 1) (gaStep P O gen st).1

/-- State entering the generation loop of run_ga: random population, its
fitness vector, empty history, starting rate, empty trackers. -/
def initState (P : GAParams) (O : GAOracle) : GAState :=
  { population := initPopulation P.populationSize O.initDraw,
    fitnesses := evaluatePopulation
      (initPopulation P.populationSize O.initDraw),
    history := [],
    prevAvgFitness := none,
    currentMutationRate := P.mutationRate,
    avgAtLastMutationCheck := none }

/-- State after the generation loop of run_ga finishes. -/
def runGAFinal (P : GAParams) (O : GAOracle) : GAState :=
  gaLoop P O P.maxGenerations 0 (initState P O)

/-- Python max(range(len(l)), key=...) from ga_core.py line 302: iterate
over the indices keeping the current one unless the candidate is
strictly greater — i.e. the first index attaining the maximum. -/
def argmaxIdx (l : List ℚ) : ℕ :=
  (List.range l.length).foldl
    (fun best i => if l.getD best 0 < l.getD i 0 then i else best) 0

/-- run_ga from ga_core.py: run the generation loop, then return the
best schedule of the final population, its fitness, and the history. -/
def runGA (P : GAParams) (O : GAOracle) :
    Schedule × ℚ × List GenRecord :=
  ((runGAFinal P O).population.getD (argmaxIdx (runGAFinal P O).fitnesses)
     [],
   (runGAFinal P O).fitnesses.getD (argmaxIdx (runGAFinal P O).fitnesses)
     0,
   (runGAFinal P O).history)

/-- A small concrete parameter set used to exercise the loop. -/
def Pc : GAParams :=
  { populationSize := 1, mutationRate := 1/100, minGenerations := 1,
    maxGenerations := 1, improvementThreshold := 1000,
    mutationHalveInterval := 1 }

/-- A fixed oracle stream used to exercise the loop. -/
def trivOracle : GAOracle :=
  { initDraw := fun _ _ => (0, 1, 2),
    pick1 := fun _ _ => 0,
    pick2 := fun _ _ => 0,
    coin1 := fun _ _ _ => true,
    coin2 := fun _ _ _ => false,
    mut1 := fun _ _ _ => ⟨false, false, false, 0, 0, 0⟩,
    mut2 := fun _ _ _ => ⟨false, false, false, 0, 0, 0⟩ }

/-- A small concrete loop state used to exercise one generation step. -/
def stC8 : GAState :=
  { population := [exSchedule], fitnesses := [0], history := [],
    prevAvgFitness := none, currentMutationRate := 1/100,
    avgAtLastMutationCheck := none }

/-- The `total` of softmax in ga_core.py: the sum of the shifted
exponentials exp(f - max_f), over exact reals. -/
noncomputable def expSum (l : List ℝ) : ℝ :=
  (l.map (fun f => Real.exp (f - listMax l))).sum

/-- softmax from ga_core.py over exact reals: empty input gives an empty
list; otherwise subtract the maximum for numerical stability,
exponentiate, and normalize — falling back to the uniform distribution
when the sum of exponentials is non-positive. -/
noncomputable def softmax (fitnesses : List ℝ) : List ℝ :=
  if fitnesses = [] then []
  else if expSum fitnesses ≤ 0 then
    List.replicate fitnesses.length (1 / (fitnesses.length : ℝ))
  else
    (fitnesses.map (fun f => Real.exp (f - listMax fitnesses))).map
      (fun e => e / expSum fitnesses)

/-! ## Theorems -/

/-- Indexing any non-empty list modulo its length lands in the list. -/
lemma getD_mod_mem {α : Type} (l : List α) (hne : l ≠ []) (i : ℕ) (d : α) :
    l.getD (i % l.length) d ∈ l := by
  have hlen : 0 < l.length := List.length_pos.mpr hne
  have h : i % l.length < l.length := Nat.mod_lt _ hlen
  rw [List.getD_eq_getElem l d h]
  exact List.getElem_mem h

/-- Propositional reading of the structural validator. -/
lemma validate_iff (s : Schedule) :
    validateScheduleStructure s = true ↔
      ((∀ a ∈ activityNames, a ∈ s.map Prod.fst) ∧
       (∀ p ∈ s, p.1 ∈ activityNames) ∧
       (∀ p ∈ s, p.2.room ∈ roomNames ∧ p.2.time ∈ TIMES)) := by
  unfold validateScheduleStructure
  exact decide_eq_true_iff

/-- Random assignments draw their room and time from the known domains. -/
lemma randomAssignment_ok (d : ℕ × ℕ × ℕ) :
    (randomAssignment d).room ∈ roomNames ∧
    (randomAssignment d).time ∈ TIMES :=
  ⟨getD_mod_mem _ (by decide) _ _, getD_mod_mem _ (by decide) _ _⟩

/-- create_random_schedule always yields a structurally valid schedule. -/
lemma createRandomSchedule_valid (draw : String → ℕ × ℕ × ℕ) :
    validateScheduleStructure (createRandomSchedule draw) = true := by
  rw [validate_iff]
  have hkeys : (createRandomSchedule draw).map Prod.fst = activityNames := by
    unfold createRandomSchedule
    rw [List.map_map]
    rfl
  refine ⟨?_, ?_, ?_⟩
  · intro a ha
    rw [hkeys]
    exact ha
  · intro p hp
    unfold createRandomSchedule at hp
    obtain ⟨a, ha, rfl⟩ := List.mem_map.mp hp
    exact ha
  · intro p hp
    unfold createRandomSchedule at hp
    obtain ⟨a, ha, rfl⟩ := List.mem_map.mp hp
    exact randomAssignment_ok (draw a)

/-- A structurally valid schedule resolves every known activity to an
assignment with in-domain room and time. -/
lemma lookupA_of_valid (s : Schedule)
    (hv : validateScheduleStructure s = true) (a : String)
    (ha : a ∈ activityNames) :
    ∃ asgn, lookupA s a = some asgn ∧
      asgn.room ∈ roomNames ∧ asgn.time ∈ TIMES := by
  rw [validate_iff] at hv
  obtain ⟨hcov, _, hdom⟩ := hv
  obtain ⟨p, hp, hpa⟩ := List.mem_map.mp (hcov a ha)
  have hsome : (s.find? (fun q => q.1 == a)).isSome := by
    rw [List.find?_isSome]
    exact ⟨p, hp, by simp [hpa]⟩
  obtain ⟨q, hq⟩ := Option.isSome_iff_exists.mp hsome
  have hqmem := List.mem_of_find?_eq_some hq
  refine ⟨q.2, ?_, (hdom q hqmem).1, (hdom q hqmem).2⟩
  unfold lookupA
  rw [hq]
  rfl

/-- When every listed activity resolves to an in-domain assignment, the
crossover loop succeeds and produces exactly those keys with in-domain
assignments. -/
lemma crossGo_sound (p1 p2 : Schedule) (coin : String → Bool)
    (acts : List String)
    (h : ∀ a ∈ acts, ∃ asgn,
      (if coin a then lookupA p1 a else lookupA p2 a) = some asgn ∧
      asgn.room ∈ roomNames ∧ asgn.time ∈ TIMES) :
    ∃ c, crossGo p1 p2 coin acts = some c ∧
      c.map Prod.fst = acts ∧
      ∀ p ∈ c, p.2.room ∈ roomNames ∧ p.2.time ∈ TIMES := by
  induction acts with
  | nil => exact ⟨[], rfl, rfl, by simp⟩
  | cons a rest ih =>
    obtain ⟨asgn, hs, hok⟩ := h a (List.mem_cons_self a rest)
    obtain ⟨c, hc, hkeys, hval⟩ :=
      ih (fun b hb => h b (List.mem_cons_of_mem a hb))
    refine ⟨(a, asgn) :: c, ?_, ?_, ?_⟩
    · unfold crossGo
      rw [hs, hc]
    · simp [hkeys]
    · intro p hp
      rcases List.mem_cons.mp hp with h1 | h2
      · rw [h1]
        exact hok
      · exact hval p h2

/-- C6: create_random_schedule (hence every member of the initial
population), crossover of two structurally valid parents, and mutate of
a structurally valid schedule all produce structurally valid Schedules:
full activity coverage with rooms and times from the known domains. -/
theorem claim_C6 :
    (∀ draw : String → ℕ × ℕ × ℕ,
      validateScheduleStructure (createRandomSchedule draw) = true) ∧
    (∀ (popSize : ℕ) (draw : ℕ → String → ℕ × ℕ × ℕ),
      ∀ s ∈ initPopulation popSize draw,
        validateScheduleStructure s = true) ∧
    (∀ (p1 p2 : Schedule) (coin : String → Bool),
      validateScheduleStructure p1 = true →
      validateScheduleStructure p2 = true →
      ∃ c, crossover p1 p2 coin = some c ∧
        validateScheduleStructure c = true) ∧
    (∀ (s : Schedule) (dr : String → MutDraw),
      validateScheduleStructure s = true →
      validateScheduleStructure (mutate s dr) = true) := by
  refine ⟨createRandomSchedule_valid, ?_, ?_, ?_⟩
  · intro popSize draw s hs
    obtain ⟨k, _, rfl⟩ := List.mem_map.mp hs
    exact createRandomSchedule_valid (draw k)
  · intro p1 p2 coin hv1 hv2
    have h : ∀ a ∈ activityNames, ∃ asgn,
        (if coin a then lookupA p1 a else lookupA p2 a) = some asgn ∧
        asgn.room ∈ roomNames ∧ asgn.time ∈ TIMES := by
      intro a ha
      by_cases hcoin : coin a
      · obtain ⟨asgn, h1, h2⟩ := lookupA_of_valid p1 hv1 a ha
        exact ⟨asgn, by rw [if_pos hcoin]; exact h1, h2⟩
      · obtain ⟨asgn, h1, h2⟩ := lookupA_of_valid p2 hv2 a ha
        exact ⟨asgn, by rw [if_neg hcoin]; exact h1, h2⟩
    obtain ⟨c, hc, hkeys, hval⟩ := crossGo_sound p1 p2 coin activityNames h
    refine ⟨c, hc, ?_⟩
    rw [validate_iff]
    refine ⟨?_, ?_, hval⟩
    · intro a ha
      rw [hkeys]
      exact ha
    · intro p hp
      rw [← hkeys]
      exact List.mem_map.mpr ⟨p, hp, rfl⟩
  · intro s dr hv
    rw [validate_iff] at hv ⊢
    obtain ⟨hcov, hkeys, hdom⟩ := hv
    have hmapkeys : (mutate s dr).map Prod.fst = s.map Prod.fst := by
      unfold mutate
      rw [List.map_map]
      rfl
    refine ⟨?_, ?_, ?_⟩
    · intro a ha
      rw [hmapkeys]
      exact hcov a ha
    · intro p hp
      obtain ⟨q, hq, rfl⟩ := List.mem_map.mp hp
      exact hkeys q hq
    · intro p hp
      obtain ⟨q, hq, rfl⟩ := List.mem_map.mp hp
      constructor
      · by_cases hmr : (dr q.1).mr
        · simpa [mutateAssignment, hmr] using
            getD_mod_mem roomNames (by decide) ((dr q.1).ir) ""
        · simpa [mutateAssignment, hmr] using (hdom q hq).1
      · by_cases hmt : (dr q.1).mt
        · simpa [mutateAssignment, hmt] using
            getD_mod_mem TIMES (by decide) ((dr q.1).it) ""
        · simpa [mutateAssignment, hmt] using (hdom q hq).2

/-- C6 witness: a concrete random schedule, a concrete crossover of the
valid example schedule with itself, and a concrete mutation. -/
theorem claim_C6_witness :
    validateScheduleStructure (createRandomSchedule (fun _ => (0, 1, 2))) =
      true ∧
    (∃ c, crossover exSchedule exSchedule (fun _ => true) = some c ∧
      validateScheduleStructure c = true) ∧
    validateScheduleStructure
      (mutate exSchedule (fun _ => ⟨true, false, true, 3, 0, 5⟩)) = true :=
  ⟨claim_C6.1 (fun _ => (0, 1, 2)),
   claim_C6.2.2.1 exSchedule exSchedule (fun _ => true) (by decide)
     (by decide),
   claim_C6.2.2.2 exSchedule (fun _ => ⟨true, false, true, 3, 0, 5⟩)
     (by decide)⟩

/-- The source load term and the specification load term agree for every
facilitator and every total load. -/
lemma facLoadTerm_eq_spec (f : String) (load : ℕ) :
    facLoadTerm f load = loadTermSpec f load := by
  unfold facLoadTerm loadTermSpec
  by_cases hT : f = "Tyler"
  · simp [hT]
  · simp only [hT, ne_eq, not_false_eq_true, if_true, if_false]
    have h : (0 < load ∧ load < 3) ↔ (1 ≤ load ∧ load < 3) := by omega
    rw [if_congr h rfl rfl]

/-- C1: for every structurally valid Schedule, compute_schedule_fitness
sums an aggregate-load term over every facilitator in the known roster,
and that term adds -0.5 for a total load above 4 and -0.4 for a total in
[1,3), except that "Tyler" gets the -0.4 exactly at total 2; a load of 0
contributes nothing. -/
theorem claim_C1 (s : Schedule) (hv : validateScheduleStructure s = true)
    (f : String) (hf : f ∈ FACILITATORS) :
    computeScheduleFitness s =
      (s.map (fun p => activityScore s p.1 p.2)).sum +
      (FACILITATORS.map (fun g => facLoadTerm g (facLoad s g))).sum +
      sectionAdjustments s ∧
    facLoadTerm f (facLoad s f) = loadTermSpec f (facLoad s f) ∧
    facLoadTerm f 0 = 0 := by
  refine ⟨rfl, facLoadTerm_eq_spec f _, ?_⟩
  unfold facLoadTerm
  by_cases hT : f = "Tyler" <;> simp [hT]

/-- C1 witness: the theorem applied to the concrete schedule and the
facilitator "Lock". -/
theorem claim_C1_witness :
    computeScheduleFitness exSchedule =
      (exSchedule.map (fun p => activityScore exSchedule p.1 p.2)).sum +
      (FACILITATORS.map (fun g => facLoadTerm g (facLoad exSchedule g))).sum +
      sectionAdjustments exSchedule ∧
    facLoadTerm "Lock" (facLoad exSchedule "Lock") =
      loadTermSpec "Lock" (facLoad exSchedule "Lock") ∧
    facLoadTerm "Lock" 0 = 0 :=
  claim_C1 exSchedule (by decide) "Lock" (by decide)

/-- C2 counterexample: in a structurally valid schedule where "Tyler" has
a total load of exactly 2, the aggregate-load term for "Tyler" is -0.4,
not 0, so the claim that the designated exception facilitator incurs no
aggregate-load penalty at total 2 is false on the code. -/
theorem claim_C2_counterexample :
    validateScheduleStructure exSchedule = true ∧
    facLoad exSchedule "Tyler" = 2 ∧
    facLoadTerm "Tyler" 2 = -(2/5) ∧
    facLoadTerm "Tyler" 2 ≠ 0 :=
  ⟨by decide, by decide, by norm_num [facLoadTerm], by norm_num [facLoadTerm]⟩

/-- C2 amended: the designated exception facilitator "Tyler" incurs the
-0.4 aggregate-load penalty exactly when the total is 2 and incurs none
at total 1, while every non-exception facilitator in the roster incurs
-0.4 at a total of exactly 2. -/
theorem claim_C2_amended (f : String) (hf : f ∈ FACILITATORS)
    (hne : f ≠ "Tyler") :
    facLoadTerm "Tyler" 2 = -(2/5) ∧
    facLoadTerm "Tyler" 1 = 0 ∧
    facLoadTerm f 2 = -(2/5) := by
  refine ⟨by norm_num [facLoadTerm], by norm_num [facLoadTerm], ?_⟩
  unfold facLoadTerm
  simp [hne]

/-- C2 witness: the amended theorem applied to "Lock". -/
theorem claim_C2_witness :
    facLoadTerm "Tyler" 2 = -(2/5) ∧
    facLoadTerm "Tyler" 1 = 0 ∧
    facLoadTerm "Lock" 2 = -(2/5) :=
  claim_C2_amended "Lock" (by decide) (by decide)

/-- Case analysis of the room-size rule: each of the four adjustments is
produced exactly under its documented condition, with the more-than-3x
check taking precedence over the more-than-1.5x check. -/
lemma roomSizeScore_cases (cap enr : ℚ) :
    (roomSizeScore cap enr = -(1/2) ↔ cap < enr) ∧
    (roomSizeScore cap enr = -(2/5) ↔ (¬cap < enr ∧ cap / enr > 3)) ∧
    (roomSizeScore cap enr = -(1/5) ↔
      (¬cap < enr ∧ ¬cap / enr > 3 ∧ cap / enr > 3/2)) ∧
    (roomSizeScore cap enr = 3/10 ↔
      (¬cap < enr ∧ ¬cap / enr > 3 ∧ ¬cap / enr > 3/2)) ∧
    roomSizeScore cap enr ∈ [-(1/2), -(2/5), -(1/5), (3/10 : ℚ)] := by
  unfold roomSizeScore
  split_ifs with h1 h2 h3 <;>
    refine ⟨?_, ?_, ?_, ?_, ?_⟩ <;>
    simp_all <;>
    norm_num <;>
    try assumption

/-- C3: for every structurally valid Schedule and every activity in it,
the room-size component applies exactly one of the four adjustments
{-0.5, -0.4, -0.2, +0.3}: -0.5 iff capacity < enrollment, else -0.4 iff
the capacity/enrollment quotient exceeds 3, else -0.2 iff it exceeds 1.5,
else +0.3 — the 3x test taking precedence over the 1.5x test. -/
theorem claim_C3 (s : Schedule) (hv : validateScheduleStructure s = true)
    (act : String) (a : Assignment) (hmem : (act, a) ∈ s) :
    (roomSizeScore (roomCapacity a.room) (enrollment act) = -(1/2) ↔
      roomCapacity a.room < enrollment act) ∧
    (roomSizeScore (roomCapacity a.room) (enrollment act) = -(2/5) ↔
      (¬roomCapacity a.room < enrollment act ∧
       roomCapacity a.room / enrollment act > 3)) ∧
    (roomSizeScore (roomCapacity a.room) (enrollment act) = -(1/5) ↔
      (¬roomCapacity a.room < enrollment act ∧
       ¬roomCapacity a.room / enrollment act > 3 ∧
       roomCapacity a.room / enrollment act > 3/2)) ∧
    (roomSizeScore (roomCapacity a.room) (enrollment act) = 3/10 ↔
      (¬roomCapacity a.room < enrollment act ∧
       ¬roomCapacity a.room / enrollment act > 3 ∧
       ¬roomCapacity a.room / enrollment act > 3/2)) ∧
    roomSizeScore (roomCapacity a.room) (enrollment act) ∈
      [-(1/2), -(2/5), -(1/5), (3/10 : ℚ)] :=
  roomSizeScore_cases (roomCapacity a.room) (enrollment act)

/-- C3 witness: the theorem applied to the concrete schedule at activity
SLA101A. -/
theorem claim_C3_witness :
    (roomSizeScore (roomCapacity "Beach 201") (enrollment "SLA101A") = -(1/2) ↔
      roomCapacity "Beach 201" < enrollment "SLA101A") ∧
    (roomSizeScore (roomCapacity "Beach 201") (enrollment "SLA101A") = -(2/5) ↔
      (¬roomCapacity "Beach 201" < enrollment "SLA101A" ∧
       roomCapacity "Beach 201" / enrollment "SLA101A" > 3)) ∧
    (roomSizeScore (roomCapacity "Beach 201") (enrollment "SLA101A") = -(1/5) ↔
      (¬roomCapacity "Beach 201" < enrollment "SLA101A" ∧
       ¬roomCapacity "Beach 201" / enrollment "SLA101A" > 3 ∧
       roomCapacity "Beach 201" / enrollment "SLA101A" > 3/2)) ∧
    (roomSizeScore (roomCapacity "Beach 201") (enrollment "SLA101A") = 3/10 ↔
      (¬roomCapacity "Beach 201" < enrollment "SLA101A" ∧
       ¬roomCapacity "Beach 201" / enrollment "SLA101A" > 3 ∧
       ¬roomCapacity "Beach 201" / enrollment "SLA101A" > 3/2)) ∧
    roomSizeScore (roomCapacity "Beach 201") (enrollment "SLA101A") ∈
      [-(1/2), -(2/5), -(1/5), (3/10 : ℚ)] :=
  claim_C3 exSchedule (by decide) "SLA101A" ⟨"Beach 201", "10 AM", "Tyler"⟩
    (by decide)

/-- The within-pair adjustments of the source equal the specification's
pairAdjSpec term. -/
lemma pairAdj_eq (i j : ℤ) :
    (if (i - j).natAbs > 4 then (1/2 : ℚ) else 0) +
      (if i = j then -(1/2) else 0) = pairAdjSpec i j := by
  unfold pairAdjSpec
  have h : i = j ↔ (i - j).natAbs = 0 := by omega
  rw [if_congr h rfl rfl]

/-- The per-combination cross adjustment of the source equals the
specification's crossAdjSpec term. -/
lemma crossScore_eq_spec (s : Schedule) (a101 a191 : String) :
    crossScore s a101 a191 =
      crossAdjSpec (timeIndex (getTR s a101).1) (timeIndex (getTR s a191).1)
        (isRomanBeach (getTR s a101).2) (isRomanBeach (getTR s a191).2) := by
  unfold crossScore crossAdjSpec
  by_cases h0 : (timeIndex (getTR s a101).1 - timeIndex (getTR s a191).1).natAbs = 0
  · simp [h0]
  · by_cases h1 : (timeIndex (getTR s a101).1 - timeIndex (getTR s a191).1).natAbs = 1
    · simp [h0, h1, bne_iff_ne]
    · by_cases h2 : (timeIndex (getTR s a101).1 - timeIndex (getTR s a191).1).natAbs = 2
      · simp [h0, h1, h2]
      · simp [h0, h1, h2]

/-- C4: for every structurally valid Schedule, the activity-specific
adjustments of compute_schedule_fitness equal the two sibling-pair terms
(+0.5 beyond distance 4, -0.5 at distance 0) plus the four cross-pair
terms (-0.25 at distance 0; +0.5 at distance 1 with the extra -0.4 when
exactly one room is in Roman or Beach; +0.25 at distance 2). -/
theorem claim_C4 (s : Schedule) (hv : validateScheduleStructure s = true) :
    sectionAdjustments s =
      pairAdjSpec (timeIndex (getTR s "SLA101A").1)
        (timeIndex (getTR s "SLA101B").1) +
      pairAdjSpec (timeIndex (getTR s "SLA191A").1)
        (timeIndex (getTR s "SLA191B").1) +
      (crossAdjSpec (timeIndex (getTR s "SLA101A").1)
        (timeIndex (getTR s "SLA191A").1)
        (isRomanBeach (getTR s "SLA101A").2)
        (isRomanBeach (getTR s "SLA191A").2) +
       crossAdjSpec (timeIndex (getTR s "SLA101A").1)
        (timeIndex (getTR s "SLA191B").1)
        (isRomanBeach (getTR s "SLA101A").2)
        (isRomanBeach (getTR s "SLA191B").2) +
       crossAdjSpec (timeIndex (getTR s "SLA101B").1)
        (timeIndex (getTR s "SLA191A").1)
        (isRomanBeach (getTR s "SLA101B").2)
        (isRomanBeach (getTR s "SLA191A").2) +
       crossAdjSpec (timeIndex (getTR s "SLA101B").1)
        (timeIndex (getTR s "SLA191B").1)
        (isRomanBeach (getTR s "SLA101B").2)
        (isRomanBeach (getTR s "SLA191B").2)) := by
  unfold sectionAdjustments
  simp only [crossPairs, List.map_cons, List.map_nil, List.sum_cons,
    List.sum_nil, crossScore_eq_spec]
  rw [← pairAdj_eq, ← pairAdj_eq]
  ring

/-- C4 witness: the theorem applied to the concrete schedule. -/
theorem claim_C4_witness :
    sectionAdjustments exSchedule =
      pairAdjSpec (timeIndex (getTR exSchedule "SLA101A").1)
        (timeIndex (getTR exSchedule "SLA101B").1) +
      pairAdjSpec (timeIndex (getTR exSchedule "SLA191A").1)
        (timeIndex (getTR exSchedule "SLA191B").1) +
      (crossAdjSpec (timeIndex (getTR exSchedule "SLA101A").1)
        (timeIndex (getTR exSchedule "SLA191A").1)
        (isRomanBeach (getTR exSchedule "SLA101A").2)
        (isRomanBeach (getTR exSchedule "SLA191A").2) +
       crossAdjSpec (timeIndex (getTR exSchedule "SLA101A").1)
        (timeIndex (getTR exSchedule "SLA191B").1)
        (isRomanBeach (getTR exSchedule "SLA101A").2)
        (isRomanBeach (getTR exSchedule "SLA191B").2) +
       crossAdjSpec (timeIndex (getTR exSchedule "SLA101B").1)
        (timeIndex (getTR exSchedule "SLA191A").1)
        (isRomanBeach (getTR exSchedule "SLA101B").2)
        (isRomanBeach (getTR exSchedule "SLA191A").2) +
       crossAdjSpec (timeIndex (getTR exSchedule "SLA101B").1)
        (timeIndex (getTR exSchedule "SLA191B").1)
        (isRomanBeach (getTR exSchedule "SLA101B").2)
        (isRomanBeach (getTR exSchedule "SLA191B").2)) := by
  have hv : validateScheduleStructure exSchedule = true := by decide
  exact claim_C4 exSchedule hv

/-- Each generation appends exactly one record to the history. -/
lemma gaStep_history (P : GAParams) (O : GAOracle) (gen : ℕ)
    (st : GAState) :
    ((gaStep P O gen st).1).history =
      st.history ++
        [⟨gen, listMax st.fitnesses, avgFit st.fitnesses,
          listMin st.fitnesses,
          improvementPct st.prevAvgFitness (avgFit st.fitnesses),
          st.currentMutationRate⟩] := by
  unfold gaStep
  split <;> rfl

/-- The step's output rate and checkpoint are exactly those of the
adaptive-mutation block. -/
lemma gaStep_rate (P : GAParams) (O : GAOracle) (gen : ℕ) (st : GAState) :
    ((gaStep P O gen st).1).currentMutationRate =
      (adaptMutation P.mutationHalveInterval gen (avgFit st.fitnesses)
        st.currentMutationRate st.avgAtLastMutationCheck).1 ∧
    ((gaStep P O gen st).1).avgAtLastMutationCheck =
      (adaptMutation P.mutationHalveInterval gen (avgFit st.fitnesses)
        st.currentMutationRate st.avgAtLastMutationCheck).2 := by
  unfold gaStep
  split <;> exact ⟨rfl, rfl⟩

/-- The loop can only break once at least min_generations generations
have completed. -/
lemma gaStep_stop (P : GAParams) (O : GAOracle) (gen : ℕ) (st : GAState)
    (h : (gaStep P O gen st).2 = true) : P.minGenerations ≤ gen + 1 := by
  by_cases hc : gen + 1 ≥ P.minGenerations ∧
      |improvementPct st.prevAvgFitness (avgFit st.fitnesses)| <
        P.improvementThreshold
  · exact hc.1
  · unfold gaStep at h
    rw [if_neg hc] at h
    simp at h

/-- Population and fitness vector of the step output: unchanged on a
break, bred and re-evaluated otherwise. -/
lemma gaStep_pop (P : GAParams) (O : GAOracle) (gen : ℕ) (st : GAState) :
    ((gaStep P O gen st).2 = true →
      ((gaStep P O gen st).1).population = st.population ∧
      ((gaStep P O gen st).1).fitnesses = st.fitnesses) ∧
    ((gaStep P O gen st).2 = false →
      ((gaStep P O gen st).1).population =
        breedPop O gen P.populationSize st.population ∧
      ((gaStep P O gen st).1).fitnesses =
        evaluatePopulation
          (breedPop O gen P.populationSize st.population)) := by
  unfold gaStep
  split
  · exact ⟨fun _ => ⟨rfl, rfl⟩, fun hf => by simp at hf⟩
  · exact ⟨fun ht => by simp at ht, fun _ => ⟨rfl, rfl⟩⟩

/-- A bred population has exactly the configured population size. -/
lemma breedPop_length (O : GAOracle) (gen popSize : ℕ)
    (pop : List Schedule) :
    (breedPop O gen popSize pop).length = popSize := by
  unfold breedPop
  rw [List.length_take, List.length_flatten, List.map_map]
  have h2 : (List.length ∘ fun k => breedPair O gen k pop) =
      fun _ => 2 := rfl
  rw [h2, List.map_const', List.sum_replicate, smul_eq_mul,
    List.length_range]
  have := Nat.div_add_mod (popSize + 1) 2
  omega

/-- The initial population has the configured size. -/
lemma initPopulation_length (n : ℕ) (draw : ℕ → String → ℕ × ℕ × ℕ) :
    (initPopulation n draw).length = n := by
  unfold initPopulation
  rw [List.length_map, List.length_range]

/-- Loop invariant: the fitness vector is the evaluation of the current
population, whose size is the configured population size. -/
lemma gaLoop_inv (P : GAParams) (O : GAOracle) (fuel : ℕ) :
    ∀ (gen : ℕ) (st : GAState),
      st.fitnesses = evaluatePopulation st.population →
      st.population.length = P.populationSize →
      ((gaLoop P O fuel gen st).fitnesses =
        evaluatePopulation (gaLoop P O fuel gen st).population ∧
       (gaLoop P O fuel gen st).population.length = P.populationSize) := by
  induction fuel with
  | zero => intro gen st h1 h2; exact ⟨h1, h2⟩
  | succ fuel ih =>
    intro gen st h1 h2
    unfold gaLoop
    by_cases hs : (gaStep P O gen st).2 = true
    · rw [if_pos hs]
      obtain ⟨hp, hf⟩ := (gaStep_pop P O gen st).1 hs
      rw [hp, hf]
      exact ⟨h1, h2⟩
    · rw [if_neg hs]
      have hs2 : (gaStep P O gen st).2 = false := by
        cases hb : (gaStep P O gen st).2
        · rfl
        · exact absurd hb hs
      obtain ⟨hp, hf⟩ := (gaStep_pop P O gen st).2 hs2
      exact ih (gen + 1) (gaStep P O gen st).1 (by rw [hp, hf])
        (by rw [hp, breedPop_length])

/-- The final history holds between min(min_generations, fuel) and
(start + fuel) records. -/
lemma gaLoop_hist_len (P : GAParams) (O : GAOracle) (fuel : ℕ) :
    ∀ (gen : ℕ) (st : GAState),
      st.history.length = gen →
      ((gaLoop P O fuel gen st).history.length ≤ gen + fuel ∧
       min P.minGenerations (gen + fuel) ≤
         (gaLoop P O fuel gen st).history.length) := by
  induction fuel with
  | zero =>
    intro gen st h
    constructor
    · rw [show gaLoop P O 0 gen st = st from rfl, h]
      omega
    · rw [show gaLoop P O 0 gen st = st from rfl, h]
      omega
  | succ fuel ih =>
    intro gen st h
    have hlen1 : ((gaStep P O gen st).1).history.length = gen + 1 := by
      rw [gaStep_history, List.length_append, h]
      rfl
    unfold gaLoop
    by_cases hs : (gaStep P O gen st).2 = true
    · rw [if_pos hs]
      have hstop := gaStep_stop P O gen st hs
      rw [hlen1]
      omega
    · rw [if_neg hs]
      obtain ⟨hb1, hb2⟩ := ih (gen + 1) (gaStep P O gen st).1 hlen1
      omega

/-- The adaptive block never raises the mutation rate. -/
lemma adaptMutation_le (interval gen : ℕ) (avgF rate : ℚ)
    (check : Option ℚ) :
    (adaptMutation interval gen avgF rate check).1 ≤ rate := by
  unfold adaptMutation
  split
  · cases check with
    | none => exact le_rfl
    | some c =>
      show (if c < avgF ∧ minMutationRate < rate then
          max (rate / 2) minMutationRate else rate) ≤ rate
      split_ifs with hcond
      · have hfl : minMutationRate = 1/1000 := rfl
        have hrpos : 0 < rate := by
          rw [hfl] at hcond
          linarith [hcond.2]
        apply max_le
        · linarith
        · exact le_of_lt hcond.2
      · exact le_rfl
  · exact le_rfl

/-- The adaptive block never drops the rate below
min(initial rate, floor). -/
lemma adaptMutation_floor (interval gen : ℕ) (avgF rate r0 : ℚ)
    (check : Option ℚ) (h : min r0 minMutationRate ≤ rate) :
    min r0 minMutationRate ≤ (adaptMutation interval gen avgF rate check).1 := by
  unfold adaptMutation
  split
  · cases check with
    | none => exact h
    | some c =>
      show min r0 minMutationRate ≤
        (if c < avgF ∧ minMutationRate < rate then
          max (rate / 2) minMutationRate else rate)
      split_ifs with hcond
      · exact le_trans (min_le_right _ _) (le_max_right _ _)
      · exact h
  · exact h

/-- Loop invariant for the mutation rate: the current rate is bounded
below by min(initial rate, floor), never exceeds any recorded rate, and
the recorded rates are pairwise non-increasing. -/
lemma gaLoop_rate_inv (P : GAParams) (O : GAOracle) (fuel : ℕ) :
    ∀ (gen : ℕ) (st : GAState),
      min P.mutationRate minMutationRate ≤ st.currentMutationRate →
      (∀ r ∈ st.history.map GenRecord.mutationRate,
        st.currentMutationRate ≤ r) →
      (st.history.map GenRecord.mutationRate).Pairwise
        (fun a b => b ≤ a) →
      (min P.mutationRate minMutationRate ≤
        (gaLoop P O fuel gen st).currentMutationRate ∧
       (∀ r ∈ (gaLoop P O fuel gen st).history.map GenRecord.mutationRate,
         (gaLoop P O fuel gen st).currentMutationRate ≤ r) ∧
       ((gaLoop P O fuel gen st).history.map
           GenRecord.mutationRate).Pairwise (fun a b => b ≤ a)) := by
  induction fuel with
  | zero => intro gen st h1 h2 h3; exact ⟨h1, h2, h3⟩
  | succ fuel ih =>
    intro gen st h1 h2 h3
    have hr := (gaStep_rate P O gen st).1
    have hrate_le : ((gaStep P O gen st).1).currentMutationRate ≤
        st.currentMutationRate := by
      rw [hr]
      exact adaptMutation_le _ _ _ _ _
    have hfloor : min P.mutationRate minMutationRate ≤
        ((gaStep P O gen st).1).currentMutationRate := by
      rw [hr]
      exact adaptMutation_floor _ _ _ _ _ _ h1
    have hmapped : ((gaStep P O gen st).1).history.map
        GenRecord.mutationRate =
        st.history.map GenRecord.mutationRate ++
          [st.currentMutationRate] := by
      rw [gaStep_history, List.map_append]
      rfl
    have hub : ∀ r ∈ ((gaStep P O gen st).1).history.map
        GenRecord.mutationRate,
        ((gaStep P O gen st).1).currentMutationRate ≤ r := by
      intro r hrmem
      rw [hmapped] at hrmem
      rcases List.mem_append.mp hrmem with hold | hnew
      · exact le_trans hrate_le (h2 r hold)
      · have he : r = st.currentMutationRate := by simpa using hnew
        rw [he]
        exact hrate_le
    have hpw : (((gaStep P O gen st).1).history.map
        GenRecord.mutationRate).Pairwise (fun a b => b ≤ a) := by
      rw [hmapped, List.pairwise_append]
      refine ⟨h3, by simp, ?_⟩
      intro a ha b hb
      have he : b = st.currentMutationRate := by simpa using hb
      rw [he]
      exact h2 a ha
    unfold gaLoop
    by_cases hs : (gaStep P O gen st).2 = true
    · rw [if_pos hs]
      exact ⟨hfloor, hub, hpw⟩
    · rw [if_neg hs]
      exact ih (gen + 1) (gaStep P O gen st).1 hfloor hub hpw

/-- Folding max over a list yields the start or a member, is an upper
bound of the start, and is an upper bound of the list. -/
lemma foldl_max_spec {α : Type} [LinearOrder α] (xs : List α) :
    ∀ b : α, (xs.foldl max b = b ∨ xs.foldl max b ∈ xs) ∧
      b ≤ xs.foldl max b ∧ ∀ x ∈ xs, x ≤ xs.foldl max b := by
  induction xs with
  | nil => intro b; exact ⟨Or.inl rfl, le_rfl, by simp⟩
  | cons x xs ih =>
    intro b
    obtain ⟨hmem, hle, hub⟩ := ih (max b x)
    simp only [List.foldl_cons]
    refine ⟨?_, ?_, ?_⟩
    · rcases hmem with he | hm
      · rcases max_choice b x with hb | hx
        · left
          rw [he, hb]
        · right
          rw [he, hx]
          exact List.mem_cons_self x xs
      · right
        exact List.mem_cons_of_mem x hm
    · exact le_trans (le_max_left b x) hle
    · intro y hy
      rcases List.mem_cons.mp hy with h1 | h2
      · rw [h1]
        exact le_trans (le_max_right b x) hle
      · exact hub y h2

/-- The Python max of a non-empty list is a member and an upper bound. -/
lemma listMax_spec {α : Type} [Inhabited α] [LinearOrder α] (l : List α)
    (h : l ≠ []) : listMax l ∈ l ∧ ∀ x ∈ l, x ≤ listMax l := by
  cases l with
  | nil => exact absurd rfl h
  | cons x xs =>
    obtain ⟨hmem, hle, hub⟩ := foldl_max_spec xs x
    have hdef : listMax (x :: xs) = xs.foldl max x := rfl
    constructor
    · rw [hdef]
      rcases hmem with he | hm
      · rw [he]
        exact List.mem_cons_self x xs
      · exact List.mem_cons_of_mem x hm
    · intro y hy
      rw [hdef]
      rcases List.mem_cons.mp hy with h1 | h2
      · rw [h1]
        exact hle
      · exact hub y h2

/-- The index fold of argmaxIdx on the first n indices. -/
def argmaxFold (l : List ℚ) (n : ℕ) : ℕ :=
  (List.range n).foldl
    (fun best i => if l.getD best 0 < l.getD i 0 then i else best) 0

/-- The index fold keeps the first index attaining the running maximum. -/
lemma argmaxFold_spec (l : List ℚ) :
    ∀ n : ℕ, 0 < n →
      (argmaxFold l n < n ∧
       (∀ j < n, l.getD j 0 ≤ l.getD (argmaxFold l n) 0) ∧
       (∀ j < argmaxFold l n, l.getD j 0 < l.getD (argmaxFold l n) 0)) := by
  intro n
  induction n with
  | zero => intro h; exact absurd h (lt_irrefl 0)
  | succ n ih =>
    intro _
    by_cases hn : 0 < n
    · obtain ⟨ih1, ih2, ih3⟩ := ih hn
      have hstep : argmaxFold l (n + 1) =
          if l.getD (argmaxFold l n) 0 < l.getD n 0 then n
          else argmaxFold l n := by
        unfold argmaxFold
        rw [List.range_succ, List.foldl_append]
        rfl
      rw [hstep]
      split_ifs with hlt
      · refine ⟨Nat.lt_succ_self n, ?_, ?_⟩
        · intro j hj
          rcases Nat.lt_succ_iff_lt_or_eq.mp hj with hj2 | hj2
          · exact le_of_lt (lt_of_le_of_lt (ih2 j hj2) hlt)
          · rw [hj2]
        · intro j hj
          exact lt_of_le_of_lt (ih2 j hj) hlt
      · refine ⟨Nat.lt_succ_of_lt ih1, ?_, ih3⟩
        intro j hj
        rcases Nat.lt_succ_iff_lt_or_eq.mp hj with hj2 | hj2
        · exact ih2 j hj2
        · rw [hj2]
          exact not_lt.mp hlt
    · have hn0 : n = 0 := Nat.eq_zero_of_not_pos hn
      subst hn0
      have h1 : argmaxFold l 1 = 0 := by
        unfold argmaxFold
        rw [show List.range 1 = [0] from rfl]
        show (if l.getD 0 0 < l.getD 0 0 then 0 else 0) = 0
        exact ite_self 0
      rw [h1]
      refine ⟨Nat.zero_lt_one, ?_, ?_⟩
      · intro j hj
        have hj0 : j = 0 := by omega
        rw [hj0]
      · intro j hj
        exact absurd hj (Nat.not_lt_zero j)

/-- argmaxIdx of a non-empty list is in range, attains an upper bound of
all entries, and is the first index doing so. -/
lemma argmax_spec (l : List ℚ) (h : l ≠ []) :
    argmaxIdx l < l.length ∧
    (∀ j < l.length, l.getD j 0 ≤ l.getD (argmaxIdx l) 0) ∧
    (∀ j < argmaxIdx l, l.getD j 0 < l.getD (argmaxIdx l) 0) := by
  have hlen : 0 < l.length := List.length_pos.mpr h
  exact argmaxFold_spec l l.length hlen

/-- The entry at argmaxIdx is the Python max of the list. -/
lemma getD_argmax_eq_listMax (l : List ℚ) (h : l ≠ []) :
    l.getD (argmaxIdx l) 0 = listMax l := by
  obtain ⟨hlt, hub, _⟩ := argmax_spec l h
  obtain ⟨hmem, hmax⟩ := listMax_spec l h
  apply le_antisymm
  · have hm : l.getD (argmaxIdx l) 0 ∈ l := by
      rw [List.getD_eq_getElem l 0 hlt]
      exact List.getElem_mem hlt
    exact hmax _ hm
  · obtain ⟨i, hi, hiv⟩ := List.mem_iff_getElem.mp hmem
    have h2 := hub i hi
    rw [List.getD_eq_getElem l 0 hi, hiv] at h2
    exact h2

/-- C5: with 0 < min_generations <= max_generations and a positive
population size, run_ga records at least min_generations and at most
max_generations generations, keeps the final fitness vector equal to the
evaluation of the final population, and returns the maximum fitness of
that vector together with the schedule at the lowest index attaining
it. -/
theorem claim_C5 (P : GAParams) (O : GAOracle)
    (h1 : 0 < P.minGenerations) (h2 : P.minGenerations ≤ P.maxGenerations)
    (h3 : 0 < P.populationSize) (h4 : 0 < P.mutationHalveInterval) :
    P.minGenerations ≤ (runGA P O).2.2.length ∧
    (runGA P O).2.2.length ≤ P.maxGenerations ∧
    (runGAFinal P O).fitnesses =
      evaluatePopulation (runGAFinal P O).population ∧
    (runGA P O).2.1 = listMax (runGAFinal P O).fitnesses ∧
    ∃ k, k < (runGAFinal P O).fitnesses.length ∧
      (runGAFinal P O).fitnesses.getD k 0 =
        listMax (runGAFinal P O).fitnesses ∧
      (∀ j < k, (runGAFinal P O).fitnesses.getD j 0 ≠
        listMax (runGAFinal P O).fitnesses) ∧
      (runGA P O).1 = (runGAFinal P O).population.getD k [] := by
  obtain ⟨hfit, hlenpop⟩ := gaLoop_inv P O P.maxGenerations 0
    (initState P O) rfl (initPopulation_length P.populationSize O.initDraw)
  have hfit2 : (runGAFinal P O).fitnesses =
      evaluatePopulation (runGAFinal P O).population := hfit
  have hlenpop2 : (runGAFinal P O).population.length = P.populationSize :=
    hlenpop
  have hne : (runGAFinal P O).fitnesses ≠ [] := by
    have hl : (runGAFinal P O).fitnesses.length = P.populationSize := by
      rw [hfit2]
      unfold evaluatePopulation
      rw [List.length_map, hlenpop2]
    intro hnil
    rw [hnil] at hl
    simp at hl
    omega
  obtain ⟨hh1, hh2⟩ := gaLoop_hist_len P O P.maxGenerations 0
    (initState P O) rfl
  have hh1b : (runGA P O).2.2.length ≤ 0 + P.maxGenerations := hh1
  have hh2b : min P.minGenerations (0 + P.maxGenerations) ≤
      (runGA P O).2.2.length := hh2
  refine ⟨by omega, by omega, hfit2, ?_, ?_⟩
  · exact getD_argmax_eq_listMax _ hne
  · refine ⟨argmaxIdx (runGAFinal P O).fitnesses,
      (argmax_spec _ hne).1, getD_argmax_eq_listMax _ hne, ?_, rfl⟩
    intro j hj
    have hlt := (argmax_spec _ hne).2.2 j hj
    rw [getD_argmax_eq_listMax _ hne] at hlt
    exact ne_of_lt hlt

/-- C5 witness: the theorem applied to the concrete parameters and
oracle. -/
theorem claim_C5_witness :
    Pc.minGenerations ≤ (runGA Pc trivOracle).2.2.length ∧
    (runGA Pc trivOracle).2.2.length ≤ Pc.maxGenerations ∧
    (runGAFinal Pc trivOracle).fitnesses =
      evaluatePopulation (runGAFinal Pc trivOracle).population ∧
    (runGA Pc trivOracle).2.1 =
      listMax (runGAFinal Pc trivOracle).fitnesses ∧
    ∃ k, k < (runGAFinal Pc trivOracle).fitnesses.length ∧
      (runGAFinal Pc trivOracle).fitnesses.getD k 0 =
        listMax (runGAFinal Pc trivOracle).fitnesses ∧
      (∀ j < k, (runGAFinal Pc trivOracle).fitnesses.getD j 0 ≠
        listMax (runGAFinal Pc trivOracle).fitnesses) ∧
      (runGA Pc trivOracle).1 =
        (runGAFinal Pc trivOracle).population.getD k [] :=
  claim_C5 Pc trivOracle (by decide) (by decide) (by decide) (by decide)

/-- C8: at every positive generation divisible by the halve interval, if
a checkpoint average was previously recorded, the rate is halved and
clamped at the floor exactly when the average improved and the rate
exceeds the floor, and the checkpoint is updated to the current average
regardless; at every other generation the rate and checkpoint are
unchanged. -/
theorem claim_C8 (P : GAParams) (O : GAOracle) (gen : ℕ) (st : GAState)
    (hI : 0 < P.mutationHalveInterval) :
    (0 < gen ∧ gen % P.mutationHalveInterval = 0 →
      ((gaStep P O gen st).1).avgAtLastMutationCheck =
        some (avgFit st.fitnesses) ∧
      (∀ c, st.avgAtLastMutationCheck = some c →
        ((c < avgFit st.fitnesses ∧
            minMutationRate < st.currentMutationRate →
          ((gaStep P O gen st).1).currentMutationRate =
            max (st.currentMutationRate / 2) minMutationRate) ∧
         (¬(c < avgFit st.fitnesses ∧
            minMutationRate < st.currentMutationRate) →
          ((gaStep P O gen st).1).currentMutationRate =
            st.currentMutationRate))) ∧
      (st.avgAtLastMutationCheck = none →
        ((gaStep P O gen st).1).currentMutationRate =
          st.currentMutationRate)) ∧
    (¬(0 < gen ∧ gen % P.mutationHalveInterval = 0) →
      ((gaStep P O gen st).1).currentMutationRate =
        st.currentMutationRate ∧
      ((gaStep P O gen st).1).avgAtLastMutationCheck =
        st.avgAtLastMutationCheck) := by
  obtain ⟨hr, hc⟩ := gaStep_rate P O gen st
  constructor
  · intro hgen
    refine ⟨?_, ?_, ?_⟩
    · rw [hc]
      unfold adaptMutation
      rw [if_pos hgen]
    · intro c hcc
      constructor
      · intro hcond
        rw [hr]
        unfold adaptMutation
        rw [if_pos hgen, hcc]
        show (if c < avgFit st.fitnesses ∧
            minMutationRate < st.currentMutationRate then
          max (st.currentMutationRate / 2) minMutationRate
          else st.currentMutationRate) =
          max (st.currentMutationRate / 2) minMutationRate
        rw [if_pos hcond]
      · intro hcond
        rw [hr]
        unfold adaptMutation
        rw [if_pos hgen, hcc]
        show (if c < avgFit st.fitnesses ∧
            minMutationRate < st.currentMutationRate then
          max (st.currentMutationRate / 2) minMutationRate
          else st.currentMutationRate) = st.currentMutationRate
        rw [if_neg hcond]
    · intro hnone
      rw [hr]
      unfold adaptMutation
      rw [if_pos hgen, hnone]
  · intro hgen
    constructor
    · rw [hr]
      unfold adaptMutation
      rw [if_neg hgen]
    · rw [hc]
      unfold adaptMutation
      rw [if_neg hgen]

/-- C8 witness: one step at generation 1 with halve interval 1 and no
previously recorded checkpoint. -/
theorem claim_C8_witness :
    (0 < 1 ∧ 1 % Pc.mutationHalveInterval = 0 →
      ((gaStep Pc trivOracle 1 stC8).1).avgAtLastMutationCheck =
        some (avgFit stC8.fitnesses) ∧
      (∀ c, stC8.avgAtLastMutationCheck = some c →
        ((c < avgFit stC8.fitnesses ∧
            minMutationRate < stC8.currentMutationRate →
          ((gaStep Pc trivOracle 1 stC8).1).currentMutationRate =
            max (stC8.currentMutationRate / 2) minMutationRate) ∧
         (¬(c < avgFit stC8.fitnesses ∧
            minMutationRate < stC8.currentMutationRate) →
          ((gaStep Pc trivOracle 1 stC8).1).currentMutationRate =
            stC8.currentMutationRate))) ∧
      (stC8.avgAtLastMutationCheck = none →
        ((gaStep Pc trivOracle 1 stC8).1).currentMutationRate =
          stC8.currentMutationRate)) ∧
    (¬(0 < 1 ∧ 1 % Pc.mutationHalveInterval = 0) →
      ((gaStep Pc trivOracle 1 stC8).1).currentMutationRate =
        stC8.currentMutationRate ∧
      ((gaStep Pc trivOracle 1 stC8).1).avgAtLastMutationCheck =
        stC8.avgAtLastMutationCheck) :=
  claim_C8 Pc trivOracle 1 stC8 (by decide)

/-- C10: across every run, the mutation rates recorded in the history
are non-increasing from each generation to every later one, and no
recorded rate falls below min(initial mutation rate, 0.001) — the floor
minMutationRate being a constant of the loop, not a parameter of
GAParams. -/
theorem claim_C10 (P : GAParams) (O : GAOracle)
    (hp : 0 < P.populationSize) (hI : 0 < P.mutationHalveInterval) :
    ((runGA P O).2.2.map GenRecord.mutationRate).Pairwise
      (fun a b => b ≤ a) ∧
    ∀ r ∈ (runGA P O).2.2.map GenRecord.mutationRate,
      min P.mutationRate minMutationRate ≤ r := by
  obtain ⟨h1, h2, h3⟩ := gaLoop_rate_inv P O P.maxGenerations 0
    (initState P O) (min_le_left _ _) (by simp [initState])
    (by simp [initState])
  constructor
  · exact h3
  · intro r hrm
    exact le_trans h1 (h2 r hrm)

/-- C10 witness: the theorem applied to the concrete parameters and
oracle. -/
theorem claim_C10_witness :
    ((runGA Pc trivOracle).2.2.map GenRecord.mutationRate).Pairwise
      (fun a b => b ≤ a) ∧
    ∀ r ∈ (runGA Pc trivOracle).2.2.map GenRecord.mutationRate,
      min Pc.mutationRate minMutationRate ≤ r :=
  claim_C10 Pc trivOracle (by decide) (by decide)

/-- The sum of shifted exponentials of a non-empty list is at least 1,
because the entry at the maximum contributes exp(0) = 1 and every entry
is positive. -/
lemma one_le_expSum (l : List ℝ) (h : l ≠ []) : 1 ≤ expSum l := by
  obtain ⟨hmem, _⟩ := listMax_spec l h
  have h1 : Real.exp (listMax l - listMax l) ∈
      l.map (fun f => Real.exp (f - listMax l)) :=
    List.mem_map.mpr ⟨listMax l, hmem, rfl⟩
  have h2 : ∀ x ∈ l.map (fun f => Real.exp (f - listMax l)), 0 ≤ x := by
    intro x hx
    obtain ⟨f, _, rfl⟩ := List.mem_map.mp hx
    exact le_of_lt (Real.exp_pos _)
  have h3 := List.single_le_sum h2 _ h1
  rw [sub_self, Real.exp_zero] at h3
  exact h3

/-- The softmax denominator is positive for non-empty input. -/
lemma expSum_pos (l : List ℝ) (h : l ≠ []) : 0 < expSum l :=
  lt_of_lt_of_le one_pos (one_le_expSum l h)

/-- On non-empty input, softmax takes the normalization branch. -/
lemma softmax_eq (l : List ℝ) (h : l ≠ []) :
    softmax l = (l.map (fun f => Real.exp (f - listMax l))).map
      (fun e => e / expSum l) := by
  unfold softmax
  rw [if_neg h, if_neg (not_le.mpr (expSum_pos l h))]

/-- Entrywise description of softmax on non-empty input. -/
lemma softmax_getD (l : List ℝ) (h : l ≠ []) (k : ℕ) (hk : k < l.length) :
    (softmax l).getD k 0 =
      Real.exp (l.getD k 0 - listMax l) / expSum l := by
  rw [softmax_eq l h, List.map_map]
  have hk2 : k < (l.map ((fun e => e / expSum l) ∘
      (fun f => Real.exp (f - listMax l)))).length := by
    rw [List.length_map]
    exact hk
  rw [List.getD_eq_getElem _ 0 hk2, List.getElem_map,
    List.getD_eq_getElem l 0 hk]
  rfl

/-- Dividing each list entry by a constant divides the sum. -/
lemma map_div_sum (es : List ℝ) (t : ℝ) :
    (es.map (fun e => e / t)).sum = es.sum / t := by
  induction es with
  | nil => simp
  | cons e es ih => simp [ih, add_div]

/-- Every entry of a non-empty list is at most its Python max. -/
lemma getD_le_listMax (l : List ℝ) (h : l ≠ []) (k : ℕ)
    (hk : k < l.length) : l.getD k 0 ≤ listMax l := by
  have hm : l.getD k 0 ∈ l := by
    rw [List.getD_eq_getElem l 0 hk]
    exact List.getElem_mem hk
  exact (listMax_spec l h).2 _ hm

/-- C7: for every non-empty fitness list, the softmax probabilities sum
to 1, and an individual holding the maximum fitness has a probability at
least that of every other individual — strictly greater than that of any
individual of strictly smaller fitness. -/
theorem claim_C7 (l : List ℝ) (hne : l ≠ []) (i j : ℕ)
    (hi : i < l.length) (hj : j < l.length)
    (hmax : l.getD i 0 = listMax l) :
    (softmax l).sum = 1 ∧
    (softmax l).getD j 0 ≤ (softmax l).getD i 0 ∧
    (l.getD j 0 < l.getD i 0 →
      (softmax l).getD j 0 < (softmax l).getD i 0) := by
  have ht := expSum_pos l hne
  refine ⟨?_, ?_, ?_⟩
  · rw [softmax_eq l hne, map_div_sum]
    show expSum l / expSum l = 1
    exact div_self (ne_of_gt ht)
  · rw [softmax_getD l hne i hi, softmax_getD l hne j hj,
      div_le_div_iff_of_pos_right ht]
    exact Real.exp_le_exp.mpr
      (sub_le_sub_right
        (hmax ▸ getD_le_listMax l hne j hj) _)
  · intro hless
    rw [softmax_getD l hne i hi, softmax_getD l hne j hj,
      div_lt_div_iff_of_pos_right ht]
    exact Real.exp_lt_exp.mpr (sub_lt_sub_right hless _)

/-- C7 witness: the two-element list [0, 1], whose maximum sits at
index 1. -/
theorem claim_C7_witness :
    (softmax [(0 : ℝ), 1]).sum = 1 ∧
    (softmax [(0 : ℝ), 1]).getD 0 0 ≤ (softmax [(0 : ℝ), 1]).getD 1 0 ∧
    (softmax [(0 : ℝ), 1]).getD 0 0 < (softmax [(0 : ℝ), 1]).getD 1 0 := by
  have h := claim_C7 [(0 : ℝ), 1] (by simp) 1 0 (by norm_num)
    (by norm_num) (by norm_num [listMax])
  exact ⟨h.1, h.2.1, h.2.2 (by norm_num)⟩

/-- C9: for every non-empty fitness list, the sum of shifted
exponentials is at least 1 under exact real arithmetic, so the
uniform-distribution fallback branch of softmax is unreachable and
softmax returns the normalized exponentials. -/
theorem claim_C9 (l : List ℝ) (h : l ≠ []) :
    1 ≤ expSum l ∧
    ¬expSum l ≤ 0 ∧
    softmax l = (l.map (fun f => Real.exp (f - listMax l))).map
      (fun e => e / expSum l) :=
  ⟨one_le_expSum l h, not_le.mpr (expSum_pos l h), softmax_eq l h⟩

/-- C9 witness: the singleton list [0]. -/
theorem claim_C9_witness :
    1 ≤ expSum [(0 : ℝ)] ∧
    ¬expSum [(0 : ℝ)] ≤ 0 ∧
    softmax [(0 : ℝ)] =
      ([(0 : ℝ)].map (fun f => Real.exp (f - listMax [(0 : ℝ)]))).map
        (fun e => e / expSum [(0 : ℝ)]) :=
  claim_C9 [(0 : ℝ)] (by simp)

end GAScheduler
